import Mathlib

/-!
# A verification model of `serve-index` (src/index.ts)

This file gives a shallow embedding in Lean 4 of the directory-listing HTTP
middleware implemented in `src/index.ts`, and proves properties of it.

Modelling conventions:
* JavaScript strings are modelled by Lean `String` (a list of characters);
  `substr`, `indexOf`, `[0]` and friends are modelled at the character level.
* The filesystem (`fs.stat`, `fs.readdir`, `fs.readFile`) is modelled by a
  record of pure functions returning `Except ErrCode _`; the handler returns
  both its outcome and the ordered trace of filesystem operations it issued.
* External JavaScript builtins and npm libraries that are not part of the
  repository (`decodeURIComponent`, `encodeURIComponent`, the `accepts`
  negotiator, `mime-types`, locale string/date functions) are modelled
  explicitly; each such model is marked in its doc comment.
* `Array.prototype.sort`, a stable sort, is modelled by `List.insertionSort`
  (stable, and for the total preorders used here the stable sorted result
  is unique, so any stable sort gives the same answer).
-/

/-! ## Character-level string helpers -/

/-- Split a character list on a separator character.  Mirrors the semantics of
JavaScript `String.prototype.split` with a single-character separator:
`"" ↦ [""]`, `"/" ↦ ["", ""]`, etc. -/
def splitOnChar (c : Char) (l : List Char) : List (List Char) :=
  l.foldr
    (fun ch acc =>
      match acc with
      | cur :: rest => if ch = c then [] :: cur :: rest else (ch :: cur) :: rest
      | [] => [[ch]])
    [[]]

/-- Model of JavaScript `s.substr(0, n)` at the character level. -/
def jsSubstr0 (s : String) (n : Nat) : String :=
  ⟨s.toList.take n⟩

/-- Model of JavaScript `s[0] !== c` tests: the first character of a string,
if any. -/
def jsFirstChar (s : String) : Option Char :=
  s.toList.head?

/-- Whether a string contains a given character (model of
`~s.indexOf(c)` being truthy). -/
def jsContainsChar (s : String) (c : Char) : Bool :=
  s.toList.contains c

/-! ## Model of the Node `path` module (POSIX flavour) -/

/-- The POSIX path separator (`path.sep`). -/
def sep : String := "/"

/-- Segment resolution step of Node's `normalizeString`: drops empty and `"."`
segments, resolves `".."` segments against the accumulator, and keeps leading
`".."` segments only when `allowAboveRoot` is true (i.e. for relative paths).
The accumulator holds the accepted segments in reverse order. -/
def normSegs (allowAboveRoot : Bool) : List String → List String → List String
  | acc, [] => acc.reverse
  | acc, s :: rest =>
    if s = "" || s = "." then normSegs allowAboveRoot acc rest
    else if s = ".." then
      match acc with
      | [] =>
        if allowAboveRoot then normSegs allowAboveRoot [".."] rest
        else normSegs allowAboveRoot [] rest
      | t :: acc' =>
        if t = ".." then normSegs allowAboveRoot (".." :: t :: acc') rest
        else normSegs allowAboveRoot acc' rest
    else normSegs allowAboveRoot (s :: acc) rest

/-- Model of Node `path.normalize` (POSIX): lexically resolves `"."` and
`".."` segments, collapses repeated separators, preserves a leading and a
trailing separator, and returns `"."` for the empty path. -/
def pathNormalize (p : String) : String :=
  if p = "" then "." else
  let isAbs := jsFirstChar p = some '/'
  let trail := p.toList.getLast? = some '/'
  let segs := normSegs (!isAbs) [] ((splitOnChar '/' p.toList).map (fun cs => (⟨cs⟩ : String)))
  let body := String.intercalate "/" segs
  if body = "" then
    if isAbs then "/" else if trail then "./" else "."
  else
    let body := if trail then body ++ "/" else body
    if isAbs then "/" ++ body else body

/-- Model of Node `path.join` for two arguments (POSIX): empty arguments are
skipped, the remainder is joined with `"/"` and normalized. -/
def pathJoin (a b : String) : String :=
  let joined := if a = "" then b else if b = "" then a else a ++ "/" ++ b
  if joined = "" then "." else pathNormalize joined

/-- Model of Node `path.resolve` for one argument (POSIX), with the process
working directory `cwd` made explicit: an absolute argument is resolved on its
own, a relative one is resolved against `cwd`.  The result never keeps a
trailing separator (except for the root `"/"`). -/
def pathResolve (cwd p : String) : String :=
  let full := if jsFirstChar p = some '/' then p else cwd ++ "/" ++ p
  let segs := normSegs false [] ((splitOnChar '/' full.toList).map (fun cs => (⟨cs⟩ : String)))
  let body := String.intercalate "/" segs
  if body = "" then "/" else "/" ++ body

/-! ## Models of JavaScript builtins used by the source -/

/-- Hexadecimal digit value of a character, if any (digits, upper- and
lowercase letters; code points compared numerically). -/
def hexVal (c : Char) : Option Nat :=
  let n := c.toNat
  if 48 ≤ n ∧ n ≤ 57 then some (n - 48)
  else if 65 ≤ n ∧ n ≤ 70 then some (n - 55)
  else if 97 ≤ n ∧ n ≤ 102 then some (n - 87)
  else none

/-- First pass of percent-decoding: each `%` must be followed by exactly two
hexadecimal digits and produces a byte (`Sum.inr`); all other characters pass
through literally (`Sum.inl`).  `none` models a `URIError`. -/
def pctTokens : List Char → Option (List (Sum Char Nat))
  | [] => some []
  | '%' :: h :: l :: rest =>
    match hexVal h, hexVal l with
    | some hv, some lv => (pctTokens rest).map (fun ts => Sum.inr (hv * 16 + lv) :: ts)
    | _, _ => none
  | '%' :: _ => none
  | c :: rest => (pctTokens rest).map (fun ts => Sum.inl c :: ts)

/-- Whether a byte is a UTF-8 continuation byte. -/
def isContByte (b : Nat) : Bool := 0x80 ≤ b && b < 0xC0

/-- Second pass of percent-decoding: strict UTF-8 decoding of the byte tokens
(rejecting overlong forms, surrogates and values above `0x10FFFF`); literal
characters pass through.  `none` models a `URIError`. -/
def utf8Decode : List (Sum Char Nat) → Option (List Char)
  | [] => some []
  | Sum.inl c :: rest => (utf8Decode rest).map (fun cs => c :: cs)
  | Sum.inr b :: rest =>
    if b < 0x80 then (utf8Decode rest).map (fun cs => Char.ofNat b :: cs)
    else if 0xC2 ≤ b ∧ b ≤ 0xDF then
      match rest with
      | Sum.inr b1 :: rest' =>
        if isContByte b1 then
          (utf8Decode rest').map (fun cs => Char.ofNat ((b - 0xC0) * 64 + (b1 - 0x80)) :: cs)
        else none
      | _ => none
    else if 0xE0 ≤ b ∧ b ≤ 0xEF then
      match rest with
      | Sum.inr b1 :: Sum.inr b2 :: rest' =>
        let lo1 := if b = 0xE0 then 0xA0 else 0x80
        let hi1 := if b = 0xED then 0x9F else 0xBF
        if (lo1 ≤ b1 && b1 ≤ hi1) && isContByte b2 then
          (utf8Decode rest').map
            (fun cs => Char.ofNat ((b - 0xE0) * 4096 + (b1 - 0x80) * 64 + (b2 - 0x80)) :: cs)
        else none
      | _ => none
    else if 0xF0 ≤ b ∧ b ≤ 0xF4 then
      match rest with
      | Sum.inr b1 :: Sum.inr b2 :: Sum.inr b3 :: rest' =>
        let lo1 := if b = 0xF0 then 0x90 else 0x80
        let hi1 := if b = 0xF4 then 0x8F else 0xBF
        if ((lo1 ≤ b1 && b1 ≤ hi1) && isContByte b2) && isContByte b3 then
          (utf8Decode rest').map
            (fun cs =>
              Char.ofNat
                ((b - 0xF0) * 262144 + (b1 - 0x80) * 4096 + (b2 - 0x80) * 64 + (b3 - 0x80)) :: cs)
        else none
      | _ => none
    else none

/-- Model of the JavaScript builtin `decodeURIComponent`.  Returns `none`
where the builtin would throw a `URIError` (a `%` not followed by two hex
digits, or percent-encoded bytes that are not well-formed UTF-8). -/
def decodeURIComponent (s : String) : Option String :=
  ((pctTokens s.toList).bind utf8Decode).map (fun cs => (⟨cs⟩ : String))

/-- Model of the locale-aware lowercasing builtin
`String.prototype.toLocaleLowerCase`, modelled as per-character `toLower`. -/
def toLocaleLowerCase (s : String) : String :=
  ⟨s.toList.map Char.toLower⟩

/-- Lexicographic strict comparison of character lists (the order JavaScript
`<` uses on strings, at the character level). -/
def charListLt : List Char → List Char → Bool
  | [], [] => false
  | [], _ :: _ => true
  | _ :: _, [] => false
  | a :: as, b :: bs => if a < b then true else if b < a then false else charListLt as bs

/-- JavaScript `a < b` on strings. -/
def jsStringLt (a b : String) : Bool :=
  charListLt a.toList b.toList

/-- The non-strict string order (`¬ b < a`), used to model JavaScript's
default (lexicographic) stable sort. -/
def stringLe (a b : String) : Prop := jsStringLt b a = false

instance : DecidableRel stringLe :=
  fun a b => inferInstanceAs (Decidable (jsStringLt b a = false))

/-- Model of the locale-aware comparison builtin
`String.prototype.localeCompare`, modelled as the lexicographic comparison of
the character sequences, returning `-1`, `0` or `1`. -/
def localeCompare (a b : String) : Int :=
  if jsStringLt a b then -1 else if jsStringLt b a then 1 else 0

/-! ## Data model -/

/-- Classified error codes of filesystem operations (`err.code`). -/
inductive ErrCode where
  | ENOENT
  | ENAMETOOLONG
  | other (code : String)
deriving DecidableEq, Repr

/-- The slice of `fs.Stats` the source consumes. -/
structure Stats where
  isDirectory : Bool
  size : Nat
  mtimeMs : Nat
deriving DecidableEq, Repr

/-- A pure model of the filesystem as seen through `fs.stat`, `fs.readdir`
and `fs.readFile`. -/
structure FileSystem where
  stat : String → Except ErrCode Stats
  readdir : String → Except ErrCode (List String)
  readFile : String → Except ErrCode String

/-- A filesystem operation issued by the handler, recorded in order. -/
inductive FsOp where
  | statOp (path : String)
  | readdirOp (path : String)
  | readFileOp (path : String)
deriving DecidableEq, Repr

/-- A directory entry together with its (possibly absent) metadata: the
`{ name, stat }` objects produced by the `stat` helper. -/
structure StatEntry where
  name : String
  stat : Option Stats
deriving DecidableEq, Repr

/-- The observable outcome of one invocation of the middleware:
either a direct response, a deferral `next()`, a classified error handed to
`next`, a rendered body, or an uncaught synchronous exception. -/
inductive Outcome where
  | respondMethod (status : Nat)
  | nextStatus (status : Nat)
  | nextFsError (code : ErrCode) (status : Option Nat)
  | nextHandler
  | render (contentType : String) (body : String)
  | thrown
deriving DecidableEq, Repr

/-- The slice of the incoming request the source consumes.  `pathname` models
`parseUrl(req)?.pathname` and `originalPathname` models
`parseUrl.original(req)?.pathname` (both undecoded).  `accept` models the
client's declared media-type acceptance: the preference (quality rank) for a
media type, or `none` when the type is unacceptable. -/
structure Request where
  method : String
  pathname : Option String
  originalPathname : Option String
  accept : String → Option Nat

/-- The locals handed to the HTML template renderer. -/
structure TemplateLocal where
  directory : String
  displayIcons : Bool
  fileList : List StatEntry
  path : String
  style : String
  viewName : String

/-- The `template` option: a template file path, or a user render function
(modelled as a pure function that may fail, standing for
`template(locals, callback)`). -/
inductive TemplateOption where
  | file (path : String)
  | render (f : TemplateLocal → Except ErrCode String)

/-- The options consumed by `serveIndex` (after defaulting). -/
structure ServeIndexOptions where
  filter : Option (String → Nat → List String → String → Bool)
  hidden : Bool
  icons : Bool
  stylesheet : String
  template : TemplateOption
  view : String

/-- Models of external JavaScript collaborators used only by the HTML
renderer: the npm `mime-types` lookup, the process-wide cached icon asset
loader (`load`, returning base64 content), and the locale date/time
formatting of `Date` (locale-dependent builtins). -/
structure JsEnv where
  mimeLookup : String → Option String
  loadIcon : String → String
  dateString : Nat → String
  timeString : Nat → String

/-! ## The pipeline helpers from the source -/

/-- `removeHidden`: drops entries whose first character is `'.'`. -/
def removeHidden (files : List String) : List String :=
  files.filter (fun file => jsFirstChar file ≠ some '.')

/-- The `stat` helper: one metadata lookup per entry (at `join(dir, file)`),
recording `stat: null` for `ENOENT` and aborting on any other error.  The
result preserves the entry order; the trace lists the lookups issued.  The
bounded-concurrency batch of the source is order-preserving and fail-fast,
modelled here sequentially. -/
def stat (fs : FileSystem) (dir : String) : List String → Except ErrCode (List StatEntry) × List FsOp
  | [] => (Except.ok [], [])
  | file :: rest =>
    let p := pathJoin dir file
    match fs.stat p with
    | Except.error e =>
      if e = ErrCode.ENOENT then
        let r := stat fs dir rest
        (r.1.map (fun l => ⟨file, none⟩ :: l), FsOp.statOp p :: r.2)
      else (Except.error e, [FsOp.statOp p])
    | Except.ok s =>
      let r := stat fs dir rest
      (r.1.map (fun l => ⟨file, some s⟩ :: l), FsOp.statOp p :: r.2)

/-- `file.stat && file.stat.isDirectory()`. -/
def isDirEntry (e : StatEntry) : Bool :=
  match e.stat with
  | some s => s.isDirectory
  | none => false

/-- JavaScript `x || y` on numbers (`0` is falsy). -/
def jsOrInt (x y : Int) : Int := if x = 0 then y else x

/-- The `fileSort` comparator: `".."` first, then directories before
non-directories, then case-insensitive locale comparison of the names. -/
def fileSort (a b : StatEntry) : Int :=
  if a.name = ".." || b.name = ".." then
    (if a.name = b.name then 0 else if a.name = ".." then -1 else 1)
  else
    jsOrInt ((if isDirEntry b then (1 : Int) else 0) - (if isDirEntry a then 1 else 0))
      (localeCompare (toLocaleLowerCase a.name) (toLocaleLowerCase b.name))

/-- The non-strict order induced by the `fileSort` comparator
(`fileSort a b ≤ 0`, i.e. "the sort may keep `a` before `b`"). -/
def fileSortRel (a b : StatEntry) : Prop := fileSort a b ≤ 0

instance : DecidableRel fileSortRel :=
  fun a b => inferInstanceAs (Decidable (fileSort a b ≤ 0))

/-- `fileList.sort(fileSort)`: JavaScript's stable sort by the comparator,
modelled by the stable `insertionSort`. -/
def fileListSort (l : List StatEntry) : List StatEntry :=
  List.insertionSort fileSortRel l

/-- Rank used to phrase "directories sort before non-directories". -/
def dirRank (e : StatEntry) : Nat := if isDirEntry e then 0 else 1

/-- `files.sort()`: JavaScript's stable sort of strings in lexicographic
order, modelled by the stable `insertionSort`. -/
def sortStrings (l : List String) : List String :=
  List.insertionSort stringLe l

/-- The pre-render file pipeline of the handler: hidden filtering, the
optional user filter (called with name, index, filtered list and the resolved
path), then the alphabetical pre-sort. -/
def pipelineFiles (hidden : Bool) (filter : Option (String → Nat → List String → String → Bool))
    (path : String) (files : List String) : List String :=
  let files := if !hidden then removeHidden files else files
  let files :=
    match filter with
    | some f => (files.enum.filter (fun p => f p.2 p.1 files path)).map Prod.snd
    | none => files
  sortStrings files

/-- The offered media types, in preference order. -/
def mediaTypes : List String := ["text/html", "text/plain", "application/json"]

/-- Modelled from the spec: the loop of the content negotiator of the
external `accepts` library (not part of this repository).  Walks the offered
list keeping the best acceptable candidate so far; a later candidate wins
only with a strictly higher preference, so the earliest offered type wins
ties. -/
def negotiateAux (accept : String → Option Nat) :
    List String → Option (String × Nat) → Option (String × Nat)
  | [], best => best
  | t :: rest, best =>
    match accept t, best with
    | none, b => negotiateAux accept rest b
    | some q, none => negotiateAux accept rest (some (t, q))
    | some q, some (bt, bq) =>
      negotiateAux accept rest (if bq < q then some (t, q) else some (bt, bq))

/-- Modelled from the spec: `accepts(req).type(mediaTypes)` — the acceptable
offered type with the highest client preference, earliest offered winning
ties; `none` when no offered type is acceptable. -/
def negotiate (accept : String → Option Nat) (offered : List String) : Option String :=
  (negotiateAux accept offered none).map Prod.fst

/-- `getRequestedDir`: percent-decode the request's URL path, `none` on a
decoding failure (the caught `URIError`). -/
def getRequestedDir (req : Request) : Option String :=
  decodeURIComponent (req.pathname.getD "")

/-! ## HTML rendering helpers -/

/-- Model of the npm `escape-html` package: escape one character. -/
def escapeHtmlChar (c : Char) : String :=
  if c = '&' then "&amp;"
  else if c = '<' then "&lt;"
  else if c = '>' then "&gt;"
  else if c = '"' then "&quot;"
  else if c = Char.ofNat 39 then "&#39;"
  else ⟨[c]⟩

/-- Model of the npm `escape-html` package (`escapeHtml`). -/
def escapeHtml (s : String) : String :=
  String.join (s.toList.map escapeHtmlChar)

/-- Lowercase hexadecimal digit. -/
def hexDigitLower (n : Nat) : Char :=
  if n < 10 then Char.ofNat ('0'.toNat + n) else Char.ofNat ('a'.toNat + n - 10)

/-- Uppercase hexadecimal digit. -/
def hexDigitUpper (n : Nat) : Char :=
  if n < 10 then Char.ofNat ('0'.toNat + n) else Char.ofNat ('A'.toNat + n - 10)

/-- Four lowercase hex digits, for `\u....` escapes. -/
def hex4 (n : Nat) : String :=
  ⟨[hexDigitLower (n / 4096 % 16), hexDigitLower (n / 256 % 16),
    hexDigitLower (n / 16 % 16), hexDigitLower (n % 16)]⟩

/-- UTF-8 bytes of a Unicode scalar value. -/
def utf8Bytes (n : Nat) : List Nat :=
  if n < 0x80 then [n]
  else if n < 0x800 then [0xC0 + n / 64, 0x80 + n % 64]
  else if n < 0x10000 then [0xE0 + n / 4096, 0x80 + n / 64 % 64, 0x80 + n % 64]
  else [0xF0 + n / 262144, 0x80 + n / 4096 % 64, 0x80 + n / 64 % 64, 0x80 + n % 64]

/-- Characters `encodeURIComponent` leaves unescaped. -/
def encodeURIComponentUnreserved (c : Char) : Bool :=
  (('A' ≤ c && c ≤ 'Z') || ('a' ≤ c && c ≤ 'z') || ('0' ≤ c && c ≤ '9')) ||
  (c == '-' || c == '_' || c == '.' || c == '!' || c == '~' ||
   c == '*' || c == Char.ofNat 39 || c == '(' || c == ')')

/-- Model of the JavaScript builtin `encodeURIComponent`. -/
def encodeURIComponent (s : String) : String :=
  String.join (s.toList.map (fun c =>
    if encodeURIComponentUnreserved c then ⟨[c]⟩
    else String.join ((utf8Bytes c.toNat).map
      (fun b => ⟨['%', hexDigitUpper (b / 16), hexDigitUpper (b % 16)]⟩))))

/-- Model of Node `path.extname` (POSIX): the suffix of the basename from its
last `.`, empty when the basename has no `.` past its first character (and
for the special name `".."`). -/
def extname (p : String) : String :=
  let base := ((splitOnChar '/' p.toList).getLast?).getD []
  if base = ['.', '.'] then "" else
  match base.reverse.takeWhile (fun c => c ≠ '.'), base.reverse.dropWhile (fun c => c ≠ '.') with
  | sfx, '.' :: pre => if pre = [] then "" else ⟨'.' :: sfx.reverse⟩
  | _, _ => ""

/-- JavaScript `s.substring(1)` at the character level. -/
def jsSubstringFrom1 (s : String) : String :=
  ⟨s.toList.drop 1⟩

/-- JavaScript `s.replace(c, r)` with one-character string arguments: replaces
the first occurrence only. -/
def jsReplaceFirstChar (c r : Char) (s : String) : String :=
  match s.toList.splitOn c with
  | [] => s
  | [_] => s
  | x :: y :: rest => ⟨x ++ [r] ++ (List.intercalate [c] (y :: rest))⟩

/-- The icon map of the source (`icons`), as an association list in source
order. -/
def icons : List (String × String) := [
  ("default", "page_white.png"),
  ("folder", "folder.png"),
  ("font", "font.png"),
  ("image", "image.png"),
  ("text", "page_white_text.png"),
  ("video", "film.png"),
  ("+json", "page_white_code.png"),
  ("+xml", "page_white_code.png"),
  ("+zip", "box.png"),
  ("application/javascript", "page_white_code_red.png"),
  ("application/json", "page_white_code.png"),
  ("application/msword", "page_white_word.png"),
  ("application/pdf", "page_white_acrobat.png"),
  ("application/postscript", "page_white_vector.png"),
  ("application/rtf", "page_white_word.png"),
  ("application/vnd.ms-excel", "page_white_excel.png"),
  ("application/vnd.ms-powerpoint", "page_white_powerpoint.png"),
  ("application/vnd.oasis.opendocument.presentation", "page_white_powerpoint.png"),
  ("application/vnd.oasis.opendocument.spreadsheet", "page_white_excel.png"),
  ("application/vnd.oasis.opendocument.text", "page_white_word.png"),
  ("application/x-7z-compressed", "box.png"),
  ("application/x-sh", "application_xp_terminal.png"),
  ("application/x-msaccess", "page_white_database.png"),
  ("application/x-shockwave-flash", "page_white_flash.png"),
  ("application/x-sql", "page_white_database.png"),
  ("application/x-tar", "box.png"),
  ("application/x-xz", "box.png"),
  ("application/xml", "page_white_code.png"),
  ("application/zip", "box.png"),
  ("image/svg+xml", "page_white_vector.png"),
  ("text/css", "page_white_code.png"),
  ("text/html", "page_white_code.png"),
  ("text/less", "page_white_code.png"),
  (".accdb", "page_white_database.png"),
  (".apk", "box.png"),
  (".app", "application_xp.png"),
  (".as", "page_white_actionscript.png"),
  (".asp", "page_white_code.png"),
  (".aspx", "page_white_code.png"),
  (".bat", "application_xp_terminal.png"),
  (".bz2", "box.png"),
  (".c", "page_white_c.png"),
  (".cab", "box.png"),
  (".cfm", "page_white_coldfusion.png"),
  (".clj", "page_white_code.png"),
  (".cc", "page_white_cplusplus.png"),
  (".cgi", "application_xp_terminal.png"),
  (".cpp", "page_white_cplusplus.png"),
  (".cs", "page_white_csharp.png"),
  (".db", "page_white_database.png"),
  (".dbf", "page_white_database.png"),
  (".deb", "box.png"),
  (".dll", "page_white_gear.png"),
  (".dmg", "drive.png"),
  (".docx", "page_white_word.png"),
  (".erb", "page_white_ruby.png"),
  (".exe", "application_xp.png"),
  (".fnt", "font.png"),
  (".gam", "controller.png"),
  (".gz", "box.png"),
  (".h", "page_white_h.png"),
  (".ini", "page_white_gear.png"),
  (".iso", "cd.png"),
  (".jar", "box.png"),
  (".java", "page_white_cup.png"),
  (".jsp", "page_white_cup.png"),
  (".lua", "page_white_code.png"),
  (".lz", "box.png"),
  (".lzma", "box.png"),
  (".m", "page_white_code.png"),
  (".map", "map.png"),
  (".msi", "box.png"),
  (".mv4", "film.png"),
  (".pdb", "page_white_database.png"),
  (".php", "page_white_php.png"),
  (".pl", "page_white_code.png"),
  (".pkg", "box.png"),
  (".pptx", "page_white_powerpoint.png"),
  (".psd", "page_white_picture.png"),
  (".py", "page_white_code.png"),
  (".rar", "box.png"),
  (".rb", "page_white_ruby.png"),
  (".rm", "film.png"),
  (".rom", "controller.png"),
  (".rpm", "box.png"),
  (".sass", "page_white_code.png"),
  (".sav", "controller.png"),
  (".scss", "page_white_code.png"),
  (".srt", "page_white_text.png"),
  (".tbz2", "box.png"),
  (".tgz", "box.png"),
  (".tlz", "box.png"),
  (".vb", "page_white_code.png"),
  (".vbs", "page_white_code.png"),
  (".xcf", "page_white_picture.png"),
  (".xlsx", "page_white_excel.png"),
  (".yaws", "page_white_code.png")]

/-- Key lookup in the icon map (`icons[key]`). -/
def iconsFind (k : String) : Option String :=
  (icons.find? (fun p => p.1 == k)).map Prod.snd

/-- `iconLookup`: the icon class name and asset file for a file name, trying
extension, full MIME type, MIME `+suffix`, MIME top-level type, then the
default.  Returns `(className, fileName)`. -/
def iconLookup (env : JsEnv) (filename : String) : String × String :=
  let ext := extname filename
  match iconsFind ext with
  | some fn => ("icon-" ++ jsSubstringFrom1 ext, fn)
  | none =>
    match env.mimeLookup ext with
    | none => ("icon-default", (iconsFind "default").getD "page_white.png")
    | some mimetype =>
      match iconsFind mimetype with
      | some fn =>
        ("icon-" ++ jsReplaceFirstChar '+' '_' (jsReplaceFirstChar '/' '-' mimetype), fn)
      | none =>
        let sfx := ((splitOnChar '+' mimetype.toList).map (fun cs => (⟨cs⟩ : String))).getD 1 ""
        if sfx ≠ "" ∧ (iconsFind ("+" ++ sfx)).isSome then
          ("icon-" ++ sfx, (iconsFind ("+" ++ sfx)).getD "")
        else
          let ty := ((splitOnChar '/' mimetype.toList).map (fun cs => (⟨cs⟩ : String))).getD 0 ""
          match iconsFind ty with
          | some fn => ("icon-" ++ ty, fn)
          | none => ("icon-default", (iconsFind "default").getD "page_white.png")

/-- Append an element unless already present (insertion-ordered set). -/
def dedupAppend (l : List String) (x : String) : List String :=
  if l.contains x then l else l ++ [x]

/-- `iconStyle`: one CSS rule per distinct icon asset, selectors grouped per
asset, in first-appearance order. -/
def iconStyle (env : JsEnv) (files : List StatEntry) (useIcons : Bool) : String :=
  if !useIcons then "" else
  let pairs := files.map (fun file =>
    if isDirEntry file then ("icon-directory", (iconsFind "folder").getD "folder.png")
    else iconLookup env file.name)
  let iconNames := pairs.foldl (fun acc p => dedupAppend acc p.2) []
  String.join (iconNames.map (fun iconName =>
    let sels := pairs.foldl
      (fun acc p =>
        if p.2 == iconName then dedupAppend acc ("#files ." ++ p.1 ++ " .name") else acc)
      []
    String.intercalate ",\n" sels ++ " \x7b\n  background-image: " ++
      "url(data:image/png;base64," ++ env.loadIcon iconName ++ ");\n\x7d\n"))

/-- `normalizeSlashes`: system separators to `/` (identity under POSIX,
modelled faithfully as split-and-join). -/
def normalizeSlashes (path : String) : String :=
  String.intercalate "/" ((splitOnChar '/' path.toList).map (fun cs => (⟨cs⟩ : String)))

/-- `createHtmlFileList`: the unordered list of entry links (one `<li>` per
entry of the sorted file list, joined by newlines). -/
def createHtmlFileList (env : JsEnv) (files : List StatEntry) (dir : String)
    (useIcons : Bool) (view : String) : String :=
  let header :=
    if view == "details" then
      "<li class=\"header\"><span class=\"name\">Name</span><span class=\"size\">Size</span>" ++
      "<span class=\"date\">Modified</span></li>"
    else ""
  let items := files.map (fun file =>
    let isDir := isDirEntry file
    let classes : List String :=
      if useIcons then
        if isDir then ["icon", "icon-directory"]
        else
          let ext := extname file.name
          let icon := iconLookup env file.name
          let base := ["icon", "icon", "icon-" ++ jsSubstringFrom1 ext]
          if base.contains icon.1 then base else base ++ [icon.1]
      else []
    let pathSegs := ((splitOnChar '/' dir.toList).map (fun cs => encodeURIComponent (⟨cs⟩ : String)))
      ++ [encodeURIComponent file.name]
    let href := escapeHtml (normalizeSlashes (pathNormalize (String.intercalate "/" pathSegs)))
    let date :=
      match file.stat with
      | some st =>
        if file.name ≠ ".." then env.dateString st.mtimeMs ++ " " ++ env.timeString st.mtimeMs
        else ""
      | none => ""
    let size :=
      match file.stat with
      | some st => if !isDir then toString st.size else ""
      | none => ""
    "<li><a href=\"" ++ href ++ "\" class=\"" ++ escapeHtml (String.intercalate " " classes) ++
      "\" title=\"" ++ escapeHtml file.name ++ "\"><span class=\"name\">" ++ escapeHtml file.name ++
      "</span><span class=\"size\">" ++ escapeHtml size ++ "</span><span class=\"date\">" ++
      escapeHtml date ++ "</span></a></li>")
  "<ul id=\"files\" class=\"view-" ++ escapeHtml view ++ "\">" ++ header ++
    String.intercalate "\n" items ++ "</ul>"

/-- Breadcrumb links of `htmlPath`: walks the `/`-separated parts, each link's
href accumulating the percent-encoded prefix; empty parts leave gaps. -/
def htmlPathAux : List String → List String → List String
  | _, [] => []
  | encPrefix, part :: rest =>
    if part ≠ "" then
      let enc := encodeURIComponent part
      ("<a href=\"" ++ escapeHtml (String.intercalate "/" (encPrefix ++ [enc])) ++ "\">" ++
        escapeHtml part ++ "</a>") :: htmlPathAux (encPrefix ++ [enc]) rest
    else "" :: htmlPathAux (encPrefix ++ [""]) rest

/-- `htmlPath`: the linked breadcrumb trail for the display directory. -/
def htmlPath (dir : String) : String :=
  String.intercalate " / " (htmlPathAux [] ((splitOnChar '/' dir.toList).map (fun cs => (⟨cs⟩ : String))))

/-- Fuel-driven scan for global substring replacement: replaces every
non-overlapping occurrence of `pat` left to right, never rescanning the
replacement text (the semantics of `String.prototype.replace` with a global
literal pattern). -/
def replaceAllGo (pat rep : List Char) : Nat → List Char → List Char
  | _, [] => []
  | 0, s => s
  | fuel + 1, c :: rest =>
    if pat ≠ [] ∧ pat.isPrefixOf (c :: rest) then
      rep ++ replaceAllGo pat rep fuel ((c :: rest).drop pat.length)
    else c :: replaceAllGo pat rep fuel rest

/-- Model of JavaScript `s.replace(/pat/g, rep)` for a literal pattern. -/
def jsReplaceAll (pat rep s : String) : String :=
  ⟨replaceAllGo pat.toList rep.toList s.toList.length s.toList⟩

/-- The token substitution of `createHtmlRender` applied to loaded template
text: global replacement of the four template tokens. -/
def createHtmlRenderBody (env : JsEnv) (tpl : String) (locals : TemplateLocal) : String :=
  jsReplaceAll "\x7blinked-path\x7d" (htmlPath locals.directory)
    (jsReplaceAll "\x7bdirectory\x7d" (escapeHtml locals.directory)
      (jsReplaceAll "\x7bfiles\x7d"
        (createHtmlFileList env locals.fileList locals.directory locals.displayIcons
          locals.viewName)
        (jsReplaceAll "\x7bstyle\x7d"
          (locals.style ++ iconStyle env locals.fileList locals.displayIcons) tpl)))

/-! ## Serializers and response branches -/

/-- JSON string escaping of one character, as `JSON.stringify` performs it. -/
def jsonEscapeChar (c : Char) : String :=
  if c = '"' then "\\\""
  else if c = '\\' then "\\\\"
  else if c = Char.ofNat 8 then "\\b"
  else if c = Char.ofNat 9 then "\\t"
  else if c = Char.ofNat 10 then "\\n"
  else if c = Char.ofNat 12 then "\\f"
  else if c = Char.ofNat 13 then "\\r"
  else if c.toNat < 0x20 then "\\u" ++ hex4 c.toNat
  else ⟨[c]⟩

/-- Model of `JSON.stringify` applied to an array of strings. -/
def jsonStringifyStringArray (l : List String) : String :=
  "[" ++ String.intercalate ","
    (l.map (fun s => "\"" ++ String.join (s.toList.map jsonEscapeChar) ++ "\"")) ++ "]"

/-- `serveIndex.json` (`_json`): stat the files, sort with `fileSort`, respond
with the JSON array of the names. -/
def serveIndexJson (fs : FileSystem) (files : List String) (path : String) :
    Outcome × List FsOp :=
  let r := stat fs path files
  match r.1 with
  | Except.error err => (Outcome.nextFsError err none, r.2)
  | Except.ok fileList =>
    (Outcome.render "application/json"
      (jsonStringifyStringArray ((fileListSort fileList).map StatEntry.name)), r.2)

/-- `serveIndex.plain` (`_plain`): stat the files, sort with `fileSort`,
respond with the newline-joined names plus a trailing newline. -/
def serveIndexPlain (fs : FileSystem) (files : List String) (path : String) :
    Outcome × List FsOp :=
  let r := stat fs path files
  match r.1 with
  | Except.error err => (Outcome.nextFsError err none, r.2)
  | Except.ok fileList =>
    (Outcome.render "text/plain"
      (String.intercalate "\n" ((fileListSort fileList).map StatEntry.name) ++ "\n"), r.2)

/-- The entry list handed to the stat gatherer by the HTML branch:
`files.unshift('..')` when `showUp` is set. -/
def htmlFiles (showUp : Bool) (files : List String) : List String :=
  if showUp then ".." :: files else files

/-- `serveIndex.html` (`_html`): prepend the `".."` parent link when
`showUp`, stat the files, sort with `fileSort`, read the stylesheet, and
render through the file template (token substitution) or the user render
function. -/
def serveIndexHtml (env : JsEnv) (fs : FileSystem) (files : List String) (dir : String)
    (showUp : Bool) (useIcons : Bool) (path : String) (view : String)
    (template : TemplateOption) (stylesheet : String) : Outcome × List FsOp :=
  let files := htmlFiles showUp files
  let r := stat fs path files
  match r.1 with
  | Except.error err => (Outcome.nextFsError err none, r.2)
  | Except.ok fileList =>
    let sorted := fileListSort fileList
    match fs.readFile stylesheet with
    | Except.error err => (Outcome.nextFsError err none, r.2 ++ [FsOp.readFileOp stylesheet])
    | Except.ok style =>
      let locals : TemplateLocal := ⟨dir, useIcons, sorted, path, style, view⟩
      match template with
      | TemplateOption.file tpath =>
        match fs.readFile tpath with
        | Except.error err =>
          (Outcome.nextFsError err none,
            r.2 ++ [FsOp.readFileOp stylesheet, FsOp.readFileOp tpath])
        | Except.ok str =>
          (Outcome.render "text/html" (createHtmlRenderBody env str locals),
            r.2 ++ [FsOp.readFileOp stylesheet, FsOp.readFileOp tpath])
      | TemplateOption.render f =>
        match f locals with
        | Except.error err => (Outcome.nextFsError err none, r.2 ++ [FsOp.readFileOp stylesheet])
        | Except.ok body => (Outcome.render "text/html" body, r.2 ++ [FsOp.readFileOp stylesheet])

/-! ## The request handler -/

/-- The canonicalized root (`normalize(resolve(root) + sep)`), with the
process working directory made explicit. -/
def rootPathOf (cwd root : String) : String :=
  pathNormalize (pathResolve cwd root ++ sep)

/-- The continuation of the handler from the initial `fs.stat` probe onward
(the `fs.stat(path, ...)` callback of the source): the directory probe with
its error classification, the `readdir` listing, hidden/filter/pre-sort,
content negotiation, and dispatch to the negotiated renderer. -/
def probeAndServe (env : JsEnv) (cwd : String) (opts : ServeIndexOptions) (fs : FileSystem)
    (req : Request) (rootPath path originalDir : String) : Outcome × List FsOp :=
  let showUp := pathNormalize (pathResolve cwd path ++ sep) ≠ rootPath
  match fs.stat path with
  | Except.error err =>
    if err = ErrCode.ENOENT then (Outcome.nextHandler, [FsOp.statOp path])
    else
      (Outcome.nextFsError err
        (some (if err = ErrCode.ENAMETOOLONG then 414 else 500)),
        [FsOp.statOp path])
  | Except.ok st =>
    if !st.isDirectory then (Outcome.nextHandler, [FsOp.statOp path])
    else
      match fs.readdir path with
      | Except.error err =>
        (Outcome.nextFsError err none, [FsOp.statOp path, FsOp.readdirOp path])
      | Except.ok rawFiles =>
        let files := pipelineFiles opts.hidden opts.filter path rawFiles
        match negotiate req.accept mediaTypes with
        | none => (Outcome.nextStatus 406, [FsOp.statOp path, FsOp.readdirOp path])
        | some t =>
          let r :=
            if t = "text/html" then
              serveIndexHtml env fs files originalDir showUp opts.icons path
                opts.view opts.template opts.stylesheet
            else if t = "application/json" then serveIndexJson fs files path
            else serveIndexPlain fs files path
          (r.1, [FsOp.statOp path, FsOp.readdirOp path] ++ r.2)

/-- The request handler returned by `serveIndex(root, options)`: method
gating, URL decoding, join-and-normalize under the root, the NUL and
confinement checks, then `probeAndServe`.  Returns the outcome and the
ordered trace of filesystem operations. -/
def serveIndexHandler (env : JsEnv) (cwd root : String) (opts : ServeIndexOptions)
    (fs : FileSystem) (req : Request) : Outcome × List FsOp :=
  let rootPath := rootPathOf cwd root
  if req.method ≠ "GET" ∧ req.method ≠ "HEAD" then
    (Outcome.respondMethod (if req.method = "OPTIONS" then 200 else 405), [])
  else
    match getRequestedDir req with
    | none => (Outcome.nextStatus 400, [])
    | some dir =>
      match decodeURIComponent (req.originalPathname.getD "") with
      | none => (Outcome.thrown, [])
      | some originalDir =>
        let path := pathNormalize (pathJoin rootPath dir)
        if jsContainsChar path (Char.ofNat 0) then (Outcome.nextStatus 400, [])
        else if jsSubstr0 (path ++ sep) rootPath.length ≠ rootPath then
          (Outcome.nextStatus 403, [])
        else probeAndServe env cwd opts fs req rootPath path originalDir

/-- `serveIndex(root, options)` itself: rejects an empty root (the thrown
`TypeError`), otherwise yields the request handler closed over the
canonicalized root. -/
def serveIndex (env : JsEnv) (cwd root : String) (opts : ServeIndexOptions) :
    Option (FileSystem → Request → Outcome × List FsOp) :=
  if root = "" then none
  else some (serveIndexHandler env cwd root opts)

deriving instance DecidableEq for Except

/-! ## Concrete example instances (used to witness the theorems below) -/

/-- A trivial external-collaborator environment. -/
def demoEnv : JsEnv := ⟨fun _ => none, fun _ => "", fun _ => "d", fun _ => "t"⟩

/-- A small filesystem: root `/root` holding a subdirectory `sub` with a
regular file, a hidden file and a subdirectory; plus a stylesheet, a template
file, and one entry whose stat fails with a non-`ENOENT` error. -/
def demoFs : FileSystem :=
  ⟨fun p =>
    if p = "/root/sub" then Except.ok ⟨true, 0, 0⟩
    else if p = "/root" then Except.ok ⟨true, 0, 0⟩
    else if p = "/root/sub/b.txt" then Except.ok ⟨false, 5, 0⟩
    else if p = "/root/sub/A" then Except.ok ⟨true, 0, 0⟩
    else if p = "/root/sub/bad" then Except.error (ErrCode.other "EACCES")
    else if p = "/root/toolong" then Except.error ErrCode.ENAMETOOLONG
    else if p = "/root/file.txt" then Except.ok ⟨false, 9, 0⟩
    else Except.error ErrCode.ENOENT,
   fun p =>
    if p = "/root/sub" then Except.ok ["b.txt", ".hidden", "A"]
    else Except.error ErrCode.ENOENT,
   fun p =>
    if p = "style.css" then Except.ok "CSS"
    else if p = "tpl.html" then Except.ok "[\x7bfiles\x7d]"
    else Except.error ErrCode.ENOENT⟩

/-- Default-ish options: no filter, hidden files excluded, no icons, file
template. -/
def demoOpts : ServeIndexOptions :=
  ⟨none, false, false, "style.css", TemplateOption.file "tpl.html", "tiles"⟩

/-- A user render function that renders just the listing's names, one per
line (used to exhibit the content of the rendered listing directly). -/
def listTemplate : TemplateLocal → Except ErrCode String :=
  fun locals => Except.ok (String.intercalate "\n" (locals.fileList.map StatEntry.name))

/-- `demoOpts` with the name-listing render function as template. -/
def demoOptsList : ServeIndexOptions :=
  ⟨none, false, false, "style.css", TemplateOption.render listTemplate, "tiles"⟩

/-- An acceptance function accepting exactly one media type. -/
def acceptOnly (x : String) : String → Option Nat :=
  fun t => if t = x then some 1 else none

/-! ## Properties of the lexicographic character order -/

theorem charListLt_irrefl : ∀ l : List Char, charListLt l l = false
  | [] => rfl
  | a :: as => by
    show (if a < a then true else if a < a then false else charListLt as as) = false
    rw [if_neg (lt_irrefl a), if_neg (lt_irrefl a)]
    exact charListLt_irrefl as

theorem charListLt_asymm : ∀ {a b : List Char}, charListLt a b = true → charListLt b a = false
  | [], [], h => by simp [charListLt] at h
  | [], _ :: _, _ => rfl
  | _ :: _, [], h => by simp [charListLt] at h
  | a :: as, b :: bs, h => by
    show (if b < a then true else if a < b then false else charListLt bs as) = false
    by_cases hab : a < b
    · rw [if_neg (asymm hab), if_pos hab]
    · by_cases hba : b < a
      · exfalso
        have hf : charListLt (a :: as) (b :: bs) = false := by
          show (if a < b then true else if b < a then false else charListLt as bs) = false
          rw [if_neg hab, if_pos hba]
        rw [hf] at h
        exact Bool.false_ne_true h
      · have h' : charListLt as bs = true := by
          have he : charListLt (a :: as) (b :: bs) = charListLt as bs := by
            show (if a < b then true else if b < a then false else charListLt as bs) = _
            rw [if_neg hab, if_neg hba]
          rwa [he] at h
        rw [if_neg hba, if_neg hab]
        exact charListLt_asymm h'

theorem charListLt_conn : ∀ {a b : List Char}, charListLt a b = false → charListLt b a = false → a = b
  | [], [], _, _ => rfl
  | [], _ :: _, h, _ => by simp [charListLt] at h
  | _ :: _, [], _, h => by simp [charListLt] at h
  | a :: as, b :: bs, h, h' => by
    by_cases hab : a < b
    · exfalso
      have ht : charListLt (a :: as) (b :: bs) = true := by
        show (if a < b then true else if b < a then false else charListLt as bs) = true
        rw [if_pos hab]
      rw [ht] at h
      simp at h
    · by_cases hba : b < a
      · exfalso
        have ht : charListLt (b :: bs) (a :: as) = true := by
          show (if b < a then true else if a < b then false else charListLt bs as) = true
          rw [if_pos hba]
        rw [ht] at h'
        simp at h'
      · have hcc : a = b := le_antisymm (le_of_not_lt hba) (le_of_not_lt hab)
        have h1 : charListLt as bs = false := by
          have he : charListLt (a :: as) (b :: bs) = charListLt as bs := by
            show (if a < b then true else if b < a then false else charListLt as bs) = _
            rw [if_neg hab, if_neg hba]
          rwa [he] at h
        have h2 : charListLt bs as = false := by
          have he : charListLt (b :: bs) (a :: as) = charListLt bs as := by
            show (if b < a then true else if a < b then false else charListLt bs as) = _
            rw [if_neg hba, if_neg hab]
          rwa [he] at h'
        rw [hcc, charListLt_conn h1 h2]

theorem charListLt_trans :
    ∀ {a b c : List Char}, charListLt a b = true → charListLt b c = true → charListLt a c = true
  | [], [], _, h, _ => by simp [charListLt] at h
  | [], _ :: _, [], _, h => by simp [charListLt] at h
  | [], _ :: _, _ :: _, _, _ => rfl
  | _ :: _, [], _, h, _ => by simp [charListLt] at h
  | _ :: _, _ :: _, [], _, h => by simp [charListLt] at h
  | a :: as, b :: bs, c :: cs, hab, hbc => by
    show (if a < c then true else if c < a then false else charListLt as cs) = true
    by_cases h1 : a < b
    · by_cases h2 : b < c
      · rw [if_pos (lt_trans h1 h2)]
      · by_cases h3 : c < b
        · exfalso
          have hf : charListLt (b :: bs) (c :: cs) = false := by
            show (if b < c then true else if c < b then false else charListLt bs cs) = false
            rw [if_neg h2, if_pos h3]
          rw [hf] at hbc
          exact Bool.false_ne_true hbc
        · have hbceq : b = c := le_antisymm (le_of_not_lt h3) (le_of_not_lt h2)
          rw [if_pos (hbceq ▸ h1)]
    · by_cases h1' : b < a
      · exfalso
        have hf : charListLt (a :: as) (b :: bs) = false := by
          show (if a < b then true else if b < a then false else charListLt as bs) = false
          rw [if_neg h1, if_pos h1']
        rw [hf] at hab
        exact Bool.false_ne_true hab
      · have habeq : a = b := le_antisymm (le_of_not_lt h1') (le_of_not_lt h1)
        have hab' : charListLt as bs = true := by
          have he : charListLt (a :: as) (b :: bs) = charListLt as bs := by
            show (if a < b then true else if b < a then false else charListLt as bs) = _
            rw [if_neg h1, if_neg h1']
          rwa [he] at hab
        by_cases h2 : b < c
        · rw [if_pos (habeq ▸ h2)]
        · by_cases h3 : c < b
          · exfalso
            have hf : charListLt (b :: bs) (c :: cs) = false := by
              show (if b < c then true else if c < b then false else charListLt bs cs) = false
              rw [if_neg h2, if_pos h3]
            rw [hf] at hbc
            exact Bool.false_ne_true hbc
          · have hbceq : b = c := le_antisymm (le_of_not_lt h3) (le_of_not_lt h2)
            have hbc' : charListLt bs cs = true := by
              have he : charListLt (b :: bs) (c :: cs) = charListLt bs cs := by
                show (if b < c then true else if c < b then false else charListLt bs cs) = _
                rw [if_neg h2, if_neg h3]
              rwa [he] at hbc
            have hac : ¬ a < c := by rw [habeq, hbceq]; exact lt_irrefl c
            have hca : ¬ c < a := by rw [habeq, hbceq]; exact lt_irrefl c
            rw [if_neg hac, if_neg hca]
            exact charListLt_trans hab' hbc'

theorem jsStringLt_asymm {a b : String} (h : jsStringLt a b = true) : jsStringLt b a = false :=
  charListLt_asymm h

theorem jsStringLt_conn {a b : String} (h : jsStringLt a b = false)
    (h' : jsStringLt b a = false) : a = b := by
  have hl : a.toList = b.toList := charListLt_conn h h'
  cases a
  cases b
  exact congrArg String.mk hl

theorem stringLe_refl (a : String) : stringLe a a := charListLt_irrefl _

theorem stringLe_total (a b : String) : stringLe a b ∨ stringLe b a := by
  cases h : jsStringLt b a
  · exact Or.inl h
  · exact Or.inr (jsStringLt_asymm h)

theorem stringLe_trans {a b c : String} (h1 : stringLe a b) (h2 : stringLe b c) :
    stringLe a c := by
  unfold stringLe at h1 h2 ⊢
  cases hca : jsStringLt c a
  · rfl
  · exfalso
    cases hab : jsStringLt a b
    · have hone : a = b := jsStringLt_conn hab h1
      rw [hone] at hca
      rw [hca] at h2
      simp at h2
    · have hcb : jsStringLt c b = true := charListLt_trans hca hab
      rw [hcb] at h2
      simp at h2

/-! ## Properties of the `fileSort` comparator -/

theorem localeCompare_nonpos {a b : String} : localeCompare a b ≤ 0 ↔ stringLe a b := by
  unfold localeCompare stringLe
  by_cases h1 : jsStringLt a b = true
  · simp [h1, jsStringLt_asymm h1]
  · have h1' : jsStringLt a b = false := by
      cases h : jsStringLt a b
      · rfl
      · exact absurd h h1
    cases h2 : jsStringLt b a <;> simp [h1', h2]

theorem fileSortRel_dotdot_iff {a b : StatEntry} (h : a.name = ".." ∨ b.name = "..") :
    fileSortRel a b ↔ (a.name = ".." ∨ a.name = b.name) := by
  unfold fileSortRel fileSort
  have hc : (decide (a.name = "..") || decide (b.name = "..")) = true := by
    rcases h with h | h <;> simp [h]
  rw [if_pos hc]
  by_cases he : a.name = b.name
  · simp [he]
  · rw [if_neg he]
    by_cases ha : a.name = ".."
    · simp [ha]
    · rw [if_neg ha]
      simp [ha, he]

theorem fileSortRel_normal_iff {a b : StatEntry} (ha : a.name ≠ "..") (hb : b.name ≠ "..") :
    fileSortRel a b ↔
      (dirRank a < dirRank b ∨
        (dirRank a = dirRank b ∧
          stringLe (toLocaleLowerCase a.name) (toLocaleLowerCase b.name))) := by
  unfold fileSortRel fileSort
  have hc : (decide (a.name = "..") || decide (b.name = "..")) = false := by
    simp [ha, hb]
  rw [hc]
  simp only [Bool.false_eq_true, if_false]
  unfold jsOrInt dirRank
  cases hda : isDirEntry a <;> cases hdb : isDirEntry b <;>
    simp only [hda, hdb, if_true, if_false] <;>
    norm_num <;>
    rw [localeCompare_nonpos]

theorem fileSortRel_total (a b : StatEntry) : fileSortRel a b ∨ fileSortRel b a := by
  by_cases ha : a.name = ".."
  · exact Or.inl ((fileSortRel_dotdot_iff (Or.inl ha)).mpr (Or.inl ha))
  · by_cases hb : b.name = ".."
    · exact Or.inr ((fileSortRel_dotdot_iff (Or.inl hb)).mpr (Or.inl hb))
    · rcases Nat.lt_trichotomy (dirRank a) (dirRank b) with h | h | h
      · exact Or.inl ((fileSortRel_normal_iff ha hb).mpr (Or.inl h))
      · rcases stringLe_total (toLocaleLowerCase a.name) (toLocaleLowerCase b.name) with hs | hs
        · exact Or.inl ((fileSortRel_normal_iff ha hb).mpr (Or.inr ⟨h, hs⟩))
        · exact Or.inr ((fileSortRel_normal_iff hb ha).mpr (Or.inr ⟨h.symm, hs⟩))
      · exact Or.inr ((fileSortRel_normal_iff hb ha).mpr (Or.inl h))

theorem fileSortRel_trans {a b c : StatEntry} (hab : fileSortRel a b) (hbc : fileSortRel b c) :
    fileSortRel a c := by
  by_cases ha : a.name = ".."
  · by_cases hc : c.name = ".."
    · exact (fileSortRel_dotdot_iff (Or.inl ha)).mpr (Or.inl ha)
    · exact (fileSortRel_dotdot_iff (Or.inl ha)).mpr (Or.inl ha)
  · have hb : b.name ≠ ".." := by
      intro hbeq
      rcases (fileSortRel_dotdot_iff (Or.inr hbeq)).mp hab with h | h
      · exact ha h
      · exact ha (h.trans hbeq)
    have hc : c.name ≠ ".." := by
      intro hceq
      rcases (fileSortRel_dotdot_iff (Or.inr hceq)).mp hbc with h | h
      · exact hb h
      · exact hb (h.trans hceq)
    rcases (fileSortRel_normal_iff ha hb).mp hab with h1 | ⟨h1, h1'⟩ <;>
      rcases (fileSortRel_normal_iff hb hc).mp hbc with h2 | ⟨h2, h2'⟩
    · exact (fileSortRel_normal_iff ha hc).mpr (Or.inl (lt_trans h1 h2))
    · exact (fileSortRel_normal_iff ha hc).mpr (Or.inl (h2 ▸ h1))
    · exact (fileSortRel_normal_iff ha hc).mpr (Or.inl (h1 ▸ h2))
    · exact (fileSortRel_normal_iff ha hc).mpr
        (Or.inr ⟨h1.trans h2, stringLe_trans h1' h2'⟩)

/-- C9: the display sort over stat-annotated entries is deterministic:
`fileListSort` permutes its input into an order sorted by the `fileSort`
comparator, in which every entry named `".."` precedes all others, directory
entries precede non-directory entries (among entries not named `".."`),
entries of the same directory/non-directory class are in case-insensitive
name order, comparator ties keep their original relative order (stability),
and sorting an already-sorted list yields the same list (idempotence). -/
theorem fileListSort_spec :
    (∀ l : List StatEntry, (fileListSort l).Perm l) ∧
    (∀ l : List StatEntry, (fileListSort l).Sorted fileSortRel) ∧
    (∀ l : List StatEntry, (fileListSort l).Pairwise (fun a b => b.name = ".." → a.name = "..")) ∧
    (∀ l : List StatEntry, (fileListSort l).Pairwise (fun a b =>
      a.name ≠ ".." → b.name ≠ ".." → isDirEntry b = true → isDirEntry a = true)) ∧
    (∀ l : List StatEntry, (fileListSort l).Pairwise (fun a b =>
      a.name ≠ ".." → b.name ≠ ".." → isDirEntry a = isDirEntry b →
        stringLe (toLocaleLowerCase a.name) (toLocaleLowerCase b.name))) ∧
    (∀ (l : List StatEntry) (a b : StatEntry),
      [a, b].Sublist l → fileSort a b = 0 → [a, b].Sublist (fileListSort l)) ∧
    (∀ l : List StatEntry, fileListSort (fileListSort l) = fileListSort l) := by
  haveI : IsTotal StatEntry fileSortRel := ⟨fileSortRel_total⟩
  haveI : IsTrans StatEntry fileSortRel := ⟨fun _ _ _ => fileSortRel_trans⟩
  have hsorted : ∀ l : List StatEntry, (fileListSort l).Sorted fileSortRel :=
    fun l => List.sorted_insertionSort fileSortRel l
  refine ⟨fun l => List.perm_insertionSort fileSortRel l, hsorted, ?_, ?_, ?_, ?_, ?_⟩
  · intro l
    refine (hsorted l).imp (fun {a b} hab hb => ?_)
    by_cases ha : a.name = ".."
    · exact ha
    · rcases (fileSortRel_dotdot_iff (Or.inr hb)).mp hab with h | h
      · exact h
      · exact h.trans hb
  · intro l
    refine (hsorted l).imp (fun {a b} hab ha hb hdb => ?_)
    cases hda : isDirEntry a
    · exfalso
      rcases (fileSortRel_normal_iff ha hb).mp hab with h | ⟨h, _⟩ <;>
        · unfold dirRank at h
          rw [if_pos hdb, if_neg (by simp [hda])] at h
          omega
    · rfl
  · intro l
    refine (hsorted l).imp (fun {a b} hab ha hb hflag => ?_)
    rcases (fileSortRel_normal_iff ha hb).mp hab with h | ⟨_, h⟩
    · exfalso
      unfold dirRank at h
      rw [hflag] at h
      exact absurd h (lt_irrefl _)
    · exact h
  · intro l a b hsub htie
    exact List.pair_sublist_insertionSort (by unfold fileSortRel; omega) hsub
  · intro l
    exact (hsorted l).insertionSort_eq

/-- Witness for C9: idempotence and a stable tie at concrete inputs (two
plain files whose names differ only by case are a comparator tie and keep
their original order). -/
theorem fileListSort_spec_witness :
    fileListSort (fileListSort
        [⟨"b.txt", some ⟨false, 1, 0⟩⟩, ⟨"A", some ⟨true, 0, 0⟩⟩]) =
      fileListSort [⟨"b.txt", some ⟨false, 1, 0⟩⟩, ⟨"A", some ⟨true, 0, 0⟩⟩] ∧
    [⟨"B", some ⟨false, 1, 0⟩⟩, ⟨"b", some ⟨false, 2, 0⟩⟩].Sublist
      (fileListSort [⟨"B", some ⟨false, 1, 0⟩⟩, ⟨"b", some ⟨false, 2, 0⟩⟩]) :=
  ⟨fileListSort_spec.2.2.2.2.2.2 _,
   fileListSort_spec.2.2.2.2.2.1 _ _ _ (by decide) (by decide)⟩


/-! ## Properties of the stat gatherer -/

theorem stat_ok_names (fs : FileSystem) (dir : String) :
    ∀ (files : List String) (fileList : List StatEntry),
      (stat fs dir files).1 = Except.ok fileList → fileList.map StatEntry.name = files := by
  intro files
  induction files with
  | nil =>
    intro fileList h
    simp only [stat] at h
    cases h
    rfl
  | cons file rest ih =>
    intro fileList h
    cases hst : fs.stat (pathJoin dir file) with
    | error e =>
      simp only [stat, hst] at h
      by_cases he : e = ErrCode.ENOENT
      · rw [if_pos he] at h
        simp only at h
        cases hr : (stat fs dir rest).1 with
        | error e' => exact absurd h (by simp [hr, Except.map])
        | ok l' =>
          simp only [hr, Except.map, Except.ok.injEq] at h
          subst h
          simp [ih l' hr]
      · rw [if_neg he] at h
        simp at h
    | ok s =>
      simp only [stat, hst] at h
      cases hr : (stat fs dir rest).1 with
      | error e' => exact absurd h (by simp [hr, Except.map])
      | ok l' =>
        simp only [hr, Except.map, Except.ok.injEq] at h
        subst h
        simp [ih l' hr]

/-- C5: per-entry `ENOENT` lookups are tolerated (recorded as an entry with
absent metadata) and the batch succeeds, while any other per-entry failure
aborts the whole gather with that error and no partial result. -/
theorem stat_gather_spec (fs : FileSystem) (dir : String) :
    (∀ files : List String,
      (∀ f ∈ files, ∀ e, fs.stat (pathJoin dir f) = Except.error e → e = ErrCode.ENOENT) →
      (stat fs dir files).1 =
        Except.ok (files.map (fun f => ⟨f, (fs.stat (pathJoin dir f)).toOption⟩))) ∧
    (∀ (pre : List String) (f : String) (post : List String) (e : ErrCode),
      (∀ g ∈ pre, ∀ e', fs.stat (pathJoin dir g) = Except.error e' → e' = ErrCode.ENOENT) →
      fs.stat (pathJoin dir f) = Except.error e → e ≠ ErrCode.ENOENT →
      (stat fs dir (pre ++ f :: post)).1 = Except.error e) := by
  constructor
  · intro files
    induction files with
    | nil => intro _; rfl
    | cons file rest ih =>
      intro hok
      have hrest := ih (fun f hf => hok f (List.mem_cons_of_mem _ hf))
      cases hst : fs.stat (pathJoin dir file) with
      | error e =>
        have he : e = ErrCode.ENOENT := hok file (List.mem_cons_self _ _) e hst
        simp only [stat, hst, if_pos he, hrest, Except.map, List.map_cons, Except.toOption]
      | ok s =>
        simp only [stat, hst, hrest, Except.map, List.map_cons, Except.toOption]
  · intro pre
    induction pre with
    | nil =>
      intro f post e _ hf hne
      simp only [List.nil_append, stat, hf, if_neg hne]
    | cons g pre' ih =>
      intro f post e hok hf hne
      have hrest := ih f post e (fun g' hg' => hok g' (List.mem_cons_of_mem _ hg')) hf hne
      cases hst : fs.stat (pathJoin dir g) with
      | error e' =>
        have he' : e' = ErrCode.ENOENT := hok g (List.mem_cons_self _ _) e' hst
        simp only [List.cons_append, stat, hst, if_pos he', List.append_eq, hrest, Except.map]
      | ok s =>
        simp only [List.cons_append, stat, hst, List.append_eq, hrest, Except.map]

/-- Witness for C5: on a concrete filesystem, a vanished entry yields a
successful batch with absent metadata, and a non-`ENOENT` failure aborts the
gather with that error. -/
theorem stat_gather_spec_witness :
    (stat demoFs "/root/sub" ["b.txt", "gone"]).1 =
      Except.ok (["b.txt", "gone"].map
        (fun f => ⟨f, (demoFs.stat (pathJoin "/root/sub" f)).toOption⟩)) ∧
    (stat demoFs "/root/sub" (["b.txt"] ++ "bad" :: ["A"])).1 =
      Except.error (ErrCode.other "EACCES") := by
  constructor
  · refine (stat_gather_spec demoFs "/root/sub").1 ["b.txt", "gone"] ?_
    intro f hf e he
    simp only [List.mem_cons, List.not_mem_nil, or_false] at hf
    rcases hf with rfl | rfl
    · rw [show demoFs.stat (pathJoin "/root/sub" "b.txt") = Except.ok ⟨false, 5, 0⟩ from by
        decide] at he
      exact absurd he (by simp)
    · rw [show demoFs.stat (pathJoin "/root/sub" "gone") = Except.error ErrCode.ENOENT from by
        decide] at he
      injection he with h
      exact h.symm
  · refine (stat_gather_spec demoFs "/root/sub").2 ["b.txt"] "bad" ["A"]
      (ErrCode.other "EACCES") ?_ (by decide) (by decide)
    intro g hg e' he'
    simp only [List.mem_cons, List.not_mem_nil, or_false] at hg
    subst hg
    rw [show demoFs.stat (pathJoin "/root/sub" "b.txt") = Except.ok ⟨false, 5, 0⟩ from by
      decide] at he'
    exact absurd he' (by simp)

/-- Counterexample to C3 as stated: for the directory `/root/sub` and entry
list `[".."]`, the gatherer does issue a filesystem metadata lookup for the
synthetic `".."` entry (at `join(dir, "..")`, the parent directory), and the
resulting entry's metadata is the parent directory's stat, not absent. -/
theorem stat_dotdot_cex :
    stat demoFs "/root/sub" [".."] =
      (Except.ok [⟨"..", some ⟨true, 0, 0⟩⟩], [FsOp.statOp "/root"]) ∧
    pathJoin "/root/sub" ".." = "/root" := by
  constructor
  · rfl
  · rfl

/-- C3 (amended): a `".."` entry in the gatherer's input is statted like any
other entry: the first filesystem operation issued is the lookup at
`join(dir, "..")` (which resolves to the parent directory), the entry's
metadata is the result of that lookup when it succeeds, and is absent only
when that lookup fails with `ENOENT`. -/
theorem stat_dotdot_amended (fs : FileSystem) (dir : String) (rest : List String) :
    (stat fs dir (".." :: rest)).2.head? = some (FsOp.statOp (pathJoin dir "..")) ∧
    (∀ s, fs.stat (pathJoin dir "..") = Except.ok s →
      (stat fs dir (".." :: rest)).1 =
        ((stat fs dir rest).1).map (fun l => ⟨"..", some s⟩ :: l)) ∧
    (fs.stat (pathJoin dir "..") = Except.error ErrCode.ENOENT →
      (stat fs dir (".." :: rest)).1 =
        ((stat fs dir rest).1).map (fun l => ⟨"..", none⟩ :: l)) := by
  refine ⟨?_, ?_, ?_⟩
  · cases hst : fs.stat (pathJoin dir "..") with
    | error e =>
      by_cases he : e = ErrCode.ENOENT
      · simp only [stat, hst, if_pos he, List.head?]
      · simp only [stat, hst, if_neg he, List.head?]
    | ok s => simp only [stat, hst, List.head?]
  · intro s hst
    simp only [stat, hst]
  · intro hst
    simp only [stat, hst, if_pos rfl, if_true]

/-- Witness for C3 (amended): applied at the concrete filesystem, where the
parent of `/root/sub` exists as a directory. -/
theorem stat_dotdot_amended_witness :
    (stat demoFs "/root/sub" [".."]).1 = Except.ok [⟨"..", some ⟨true, 0, 0⟩⟩] := by
  have h := (stat_dotdot_amended demoFs "/root/sub" []).2.1 ⟨true, 0, 0⟩ (by rfl)
  rw [h]
  rfl

/-! ## The JSON and plain renderers -/

/-- C7: given a successful stat gather, the JSON renderer responds with
exactly the JSON array of the sorted listing's names (no metadata), and the
plain renderer with exactly the newline-joined names followed by one trailing
newline. -/
theorem render_json_plain_spec (fs : FileSystem) (files : List String) (path : String) :
    ∀ fileList, (stat fs path files).1 = Except.ok fileList →
      serveIndexJson fs files path =
        (Outcome.render "application/json"
          (jsonStringifyStringArray ((fileListSort fileList).map StatEntry.name)),
          (stat fs path files).2) ∧
      serveIndexPlain fs files path =
        (Outcome.render "text/plain"
          (String.intercalate "\n" ((fileListSort fileList).map StatEntry.name) ++ "\n"),
          (stat fs path files).2) := by
  intro fileList h
  constructor
  · simp only [serveIndexJson, h]
  · simp only [serveIndexPlain, h]

/-- Witness for C7 at a concrete directory: the spec's own examples
`["A","b.txt"]` and `"A\nb.txt\n"`. -/
theorem render_json_plain_spec_witness :
    (serveIndexJson demoFs ["A", "b.txt"] "/root/sub").1 =
      Outcome.render "application/json" "[\"A\",\"b.txt\"]" ∧
    (serveIndexPlain demoFs ["A", "b.txt"] "/root/sub").1 =
      Outcome.render "text/plain" "A\nb.txt\n" := by
  have h := render_json_plain_spec demoFs ["A", "b.txt"] "/root/sub"
    [⟨"A", some ⟨true, 0, 0⟩⟩, ⟨"b.txt", some ⟨false, 5, 0⟩⟩] (by rfl)
  refine ⟨?_, ?_⟩
  · rw [h.1]
    rfl
  · rw [h.2]
    rfl

/-- C10: the JSON and plain branches never add a parent-link entry: whenever
the listed entries do not contain `".."` (directory enumeration never yields
it), the rendered JSON and plain listings contain no `".."` entry, whatever
`showUp` was computed to be. -/
theorem parent_link_only_html (fs : FileSystem) (path : String) (files : List String)
    (h : ".." ∉ files) :
    ∀ fileList, (stat fs path files).1 = Except.ok fileList →
      ".." ∉ (fileListSort fileList).map StatEntry.name ∧
      (serveIndexJson fs files path).1 =
        Outcome.render "application/json"
          (jsonStringifyStringArray ((fileListSort fileList).map StatEntry.name)) ∧
      (serveIndexPlain fs files path).1 =
        Outcome.render "text/plain"
          (String.intercalate "\n" ((fileListSort fileList).map StatEntry.name) ++ "\n") := by
  intro fileList hok
  refine ⟨?_, ?_, ?_⟩
  · intro hmem
    have hperm : (fileListSort fileList).Perm fileList := List.perm_insertionSort _ _
    have hm : ".." ∈ fileList.map StatEntry.name := by
      rcases List.mem_map.mp hmem with ⟨e, he, hname⟩
      exact List.mem_map.mpr ⟨e, hperm.mem_iff.mp he, hname⟩
    rw [stat_ok_names fs path files fileList hok] at hm
    exact h hm
  · simp only [serveIndexJson, hok]
  · simp only [serveIndexPlain, hok]

/-- Witness for C10 at a concrete directory listing without `".."`. -/
theorem parent_link_only_html_witness :
    ".." ∉ (fileListSort [⟨"A", some ⟨true, 0, 0⟩⟩,
      ⟨"b.txt", some ⟨false, 5, 0⟩⟩]).map StatEntry.name :=
  (parent_link_only_html demoFs "/root/sub" ["A", "b.txt"] (by decide)
    [⟨"A", some ⟨true, 0, 0⟩⟩, ⟨"b.txt", some ⟨false, 5, 0⟩⟩] (by rfl)).1

/-! ## Hidden-entry filtering -/

theorem mem_removeHidden {n : String} {files : List String} (h : n ∈ removeHidden files) :
    jsFirstChar n ≠ some '.' := by
  unfold removeHidden at h
  have hm := List.mem_filter.mp h
  exact of_decide_eq_true hm.2

theorem mem_pipelineFiles {n : String}
    {filt : Option (String → Nat → List String → String → Bool)} {path : String}
    {raw : List String} (h : n ∈ pipelineFiles false filt path raw) :
    n ∈ removeHidden raw := by
  unfold pipelineFiles sortStrings at h
  simp only [Bool.not_false, if_true] at h
  have h2 := (List.perm_insertionSort _ _).mem_iff.mp h
  cases filt with
  | none => exact h2
  | some f =>
    simp only at h2
    have hsub : (((removeHidden raw).enum.filter
        (fun p => f p.2 p.1 (removeHidden raw) path)).map Prod.snd).Sublist (removeHidden raw) := by
      have hs := List.Sublist.map Prod.snd
        (List.filter_sublist (p := fun p => f p.2 p.1 (removeHidden raw) path)
          ((removeHidden raw).enum))
      rwa [List.enum_map_snd] at hs
    exact hsub.subset h2

/-- C2 (amended): with `includeHidden` false, no entry of the directory
enumeration whose name starts with `.` survives to any rendered listing; the
only dot-named entry that can appear is the synthetic parent link `".."`,
which the HTML branch prepends after hidden filtering.  For the JSON and
plain listings (which add no parent link) no dot-named entry appears at
all. -/
theorem hidden_filtering_spec (fs : FileSystem) (path : String)
    (filt : Option (String → Nat → List String → String → Bool))
    (rawFiles : List String) (showUp : Bool) :
    (∀ n ∈ pipelineFiles false filt path rawFiles, jsFirstChar n ≠ some '.') ∧
    (∀ fileList,
      (stat fs path (htmlFiles showUp (pipelineFiles false filt path rawFiles))).1 =
        Except.ok fileList →
      ∀ e ∈ fileListSort fileList, jsFirstChar e.name = some '.' → e.name = "..") ∧
    (∀ fileList,
      (stat fs path (pipelineFiles false filt path rawFiles)).1 = Except.ok fileList →
      ∀ e ∈ fileListSort fileList, jsFirstChar e.name ≠ some '.') := by
  have hbase : ∀ n ∈ pipelineFiles false filt path rawFiles, jsFirstChar n ≠ some '.' :=
    fun n hn => mem_removeHidden (mem_pipelineFiles hn)
  refine ⟨hbase, ?_, ?_⟩
  · intro fileList hok e he hdot
    have hperm := (List.perm_insertionSort fileSortRel fileList).mem_iff.mp he
    have hname : e.name ∈ htmlFiles showUp (pipelineFiles false filt path rawFiles) := by
      rw [← stat_ok_names fs path _ fileList hok]
      exact List.mem_map_of_mem StatEntry.name hperm
    unfold htmlFiles at hname
    by_cases hs : showUp = true
    · rw [if_pos hs] at hname
      rcases List.mem_cons.mp hname with hh | hh
      · exact hh
      · exact absurd hdot (hbase e.name hh)
    · rw [if_neg hs] at hname
      exact absurd hdot (hbase e.name hname)
  · intro fileList hok e he
    have hperm := (List.perm_insertionSort fileSortRel fileList).mem_iff.mp he
    have hname : e.name ∈ pipelineFiles false filt path rawFiles := by
      rw [← stat_ok_names fs path _ fileList hok]
      exact List.mem_map_of_mem StatEntry.name hperm
    exact hbase e.name hname

/-- Counterexample to C2 as stated: with hidden filtering active
(`hidden = false`) and HTML negotiated for a non-root directory, the rendered
listing does contain the parent-link entry `".."`, whose name starts with a
dot (here rendered through a template function that prints the listing's
names line by line). -/
theorem hidden_filtering_cex :
    (serveIndexHandler demoEnv "/" "/root" demoOptsList demoFs
        ⟨"GET", some "/sub", some "/sub", acceptOnly "text/html"⟩).1 =
      Outcome.render "text/html" "..\nA\nb.txt" ∧
    jsFirstChar ".." = some '.' := by
  exact ⟨rfl, rfl⟩

/-- Witness for C2 (amended) at the concrete directory: in the sorted HTML
listing of `/root/sub` every dot-initial entry is the parent link. -/
theorem hidden_filtering_spec_witness :
    ∀ e ∈ fileListSort [⟨"..", some ⟨true, 0, 0⟩⟩, ⟨"A", some ⟨true, 0, 0⟩⟩,
        ⟨"b.txt", some ⟨false, 5, 0⟩⟩],
      jsFirstChar e.name = some '.' → e.name = ".." :=
  (hidden_filtering_spec demoFs "/root/sub" none ["b.txt", ".hidden", "A"] true).2.1
    [⟨"..", some ⟨true, 0, 0⟩⟩, ⟨"A", some ⟨true, 0, 0⟩⟩, ⟨"b.txt", some ⟨false, 5, 0⟩⟩]
    (by rfl)

/-! ## Handler-level lemmas -/

theorem serveIndexJson_not_nextStatus (fs : FileSystem) (files : List String) (path : String)
    (s : Nat) : (serveIndexJson fs files path).1 ≠ Outcome.nextStatus s := by
  unfold serveIndexJson
  cases h : (stat fs path files).1 <;> simp [h]

theorem serveIndexPlain_not_nextStatus (fs : FileSystem) (files : List String) (path : String)
    (s : Nat) : (serveIndexPlain fs files path).1 ≠ Outcome.nextStatus s := by
  unfold serveIndexPlain
  cases h : (stat fs path files).1 <;> simp [h]

theorem serveIndexHtml_not_nextStatus (env : JsEnv) (fs : FileSystem) (files : List String)
    (dir : String) (showUp useIcons : Bool) (path view : String) (template : TemplateOption)
    (stylesheet : String) (s : Nat) :
    (serveIndexHtml env fs files dir showUp useIcons path view template stylesheet).1 ≠
      Outcome.nextStatus s := by
  unfold serveIndexHtml
  cases h : (stat fs path (htmlFiles showUp files)).1 with
  | error e => simp [h]
  | ok fileList =>
    cases hs : fs.readFile stylesheet with
    | error e => simp [h, hs]
    | ok style =>
      cases template with
      | file tpath =>
        cases ht : fs.readFile tpath <;> simp [h, hs, ht]
      | render f =>
        cases ht : f ⟨dir, useIcons, fileListSort fileList, path, style, view⟩ <;>
          simp [h, hs, ht]

theorem probeAndServe_nextStatus (env : JsEnv) (cwd : String) (opts : ServeIndexOptions)
    (fs : FileSystem) (req : Request) (rootPath path originalDir : String) (s : Nat)
    (h : (probeAndServe env cwd opts fs req rootPath path originalDir).1 =
      Outcome.nextStatus s) : s = 406 := by
  unfold probeAndServe at h
  cases hst : fs.stat path with
  | error e =>
    by_cases he : e = ErrCode.ENOENT
    · simp [hst, he] at h
    · simp [hst, he] at h
  | ok st =>
    cases hd : st.isDirectory with
    | false => simp [hst, hd] at h
    | true =>
      simp only [hst, hd, Bool.not_true, Bool.false_eq_true, if_false] at h
      cases hrd : fs.readdir path with
      | error e => simp [hrd] at h
      | ok rawFiles =>
        simp only [hrd] at h
        cases hneg : negotiate req.accept mediaTypes with
        | none =>
          simp only [hneg, Outcome.nextStatus.injEq] at h
          exact h.symm
        | some t =>
          exfalso
          simp only [hneg] at h
          by_cases h1 : t = "text/html"
          · rw [if_pos h1] at h
            exact serveIndexHtml_not_nextStatus _ _ _ _ _ _ _ _ _ _ s h
          · rw [if_neg h1] at h
            by_cases h2 : t = "application/json"
            · rw [if_pos h2] at h
              exact serveIndexJson_not_nextStatus _ _ _ s h
            · rw [if_neg h2] at h
              exact serveIndexPlain_not_nextStatus _ _ _ s h

/-- Reduction of the handler to its probe continuation once the method gate,
both URL decodings, the NUL check and the confinement check all pass. -/
theorem serveIndexHandler_probe (env : JsEnv) (cwd root : String) (opts : ServeIndexOptions)
    (fs : FileSystem) (req : Request) (dir od : String)
    (hm : req.method = "GET" ∨ req.method = "HEAD")
    (hdir : getRequestedDir req = some dir)
    (hod : decodeURIComponent (req.originalPathname.getD "") = some od)
    (hnul : jsContainsChar (pathNormalize (pathJoin (rootPathOf cwd root) dir))
      (Char.ofNat 0) = false)
    (hpre : jsSubstr0 (pathNormalize (pathJoin (rootPathOf cwd root) dir) ++ sep)
      (rootPathOf cwd root).length = rootPathOf cwd root) :
    serveIndexHandler env cwd root opts fs req =
      probeAndServe env cwd opts fs req (rootPathOf cwd root)
        (pathNormalize (pathJoin (rootPathOf cwd root) dir)) od := by
  have hmcond : ¬(req.method ≠ "GET" ∧ req.method ≠ "HEAD") := by
    rcases hm with h | h <;> simp [h]
  unfold serveIndexHandler
  rw [if_neg hmcond, hdir]
  simp only [hod, hnul, Bool.false_eq_true, if_false]
  rw [if_neg (not_not_intro hpre)]

/-- C8: a request whose URL path fails percent-decoding is answered with
BadRequest (400) before any filesystem access, and so is a request whose
decoded path, joined under the root and normalized, contains an embedded NUL
character (the empty trace is the absence of filesystem access). -/
theorem bad_request_spec (env : JsEnv) (cwd root : String) (opts : ServeIndexOptions)
    (fs : FileSystem) (req : Request)
    (hm : req.method = "GET" ∨ req.method = "HEAD") :
    (getRequestedDir req = none →
      serveIndexHandler env cwd root opts fs req = (Outcome.nextStatus 400, [])) ∧
    (∀ dir od, getRequestedDir req = some dir →
      decodeURIComponent (req.originalPathname.getD "") = some od →
      jsContainsChar (pathNormalize (pathJoin (rootPathOf cwd root) dir))
          (Char.ofNat 0) = true →
      serveIndexHandler env cwd root opts fs req = (Outcome.nextStatus 400, [])) := by
  have hmcond : ¬(req.method ≠ "GET" ∧ req.method ≠ "HEAD") := by
    rcases hm with h | h <;> simp [h]
  constructor
  · intro hdir
    unfold serveIndexHandler
    rw [if_neg hmcond, hdir]
  · intro dir od hdir hod hnul
    unfold serveIndexHandler
    rw [if_neg hmcond, hdir]
    simp only [hod, hnul, if_true]

/-- Witness for C8: a malformed percent sequence, and a path that decodes to
an embedded NUL, both answered 400 with no filesystem operation. -/
theorem bad_request_spec_witness :
    serveIndexHandler demoEnv "/" "/root" demoOpts demoFs
        ⟨"GET", some "/%zz", some "/%zz", acceptOnly "text/plain"⟩ =
      (Outcome.nextStatus 400, []) ∧
    serveIndexHandler demoEnv "/" "/root" demoOpts demoFs
        ⟨"GET", some "/../%00", some "/", acceptOnly "text/plain"⟩ =
      (Outcome.nextStatus 400, []) :=
  ⟨(bad_request_spec demoEnv "/" "/root" demoOpts demoFs _ (Or.inl rfl)).1 (by rfl),
   (bad_request_spec demoEnv "/" "/root" demoOpts demoFs _ (Or.inl rfl)).2
     "/../\x00" "/" (by rfl) (by rfl) (by rfl)⟩

theorem jsSubstr0_append {s r : String} {n : Nat} (h : jsSubstr0 s n = r) :
    ∃ t, s = r ++ t := by
  refine ⟨⟨s.toList.drop n⟩, ?_⟩
  have hs : s = (⟨s.toList.take n ++ s.toList.drop n⟩ : String) := by
    cases s
    simp [List.take_append_drop, String.toList]
  rw [← h]
  exact hs

/-- C1 (amended): for a GET/HEAD request whose URL decodings succeed and
whose joined-and-normalized path contains no NUL (the earlier BadRequest
checks), the confinement check decides everything: if the root (with trailing
separator) is not a character prefix of the normalized joined path (with
trailing separator appended), the handler responds Forbidden (403) with no
filesystem operation; otherwise the handler never responds 403 and the
resulting absolute path extended by the separator has the root as a string
prefix. -/
theorem path_confinement_spec (env : JsEnv) (cwd root : String) (opts : ServeIndexOptions)
    (fs : FileSystem) (req : Request) (dir od : String)
    (hm : req.method = "GET" ∨ req.method = "HEAD")
    (hdir : getRequestedDir req = some dir)
    (hod : decodeURIComponent (req.originalPathname.getD "") = some od)
    (hnul : jsContainsChar (pathNormalize (pathJoin (rootPathOf cwd root) dir))
      (Char.ofNat 0) = false) :
    (jsSubstr0 (pathNormalize (pathJoin (rootPathOf cwd root) dir) ++ sep)
        (rootPathOf cwd root).length ≠ rootPathOf cwd root →
      serveIndexHandler env cwd root opts fs req = (Outcome.nextStatus 403, [])) ∧
    (jsSubstr0 (pathNormalize (pathJoin (rootPathOf cwd root) dir) ++ sep)
        (rootPathOf cwd root).length = rootPathOf cwd root →
      (serveIndexHandler env cwd root opts fs req).1 ≠ Outcome.nextStatus 403 ∧
      ∃ t, pathNormalize (pathJoin (rootPathOf cwd root) dir) ++ sep =
        rootPathOf cwd root ++ t) := by
  have hmcond : ¬(req.method ≠ "GET" ∧ req.method ≠ "HEAD") := by
    rcases hm with h | h <;> simp [h]
  constructor
  · intro hpre
    unfold serveIndexHandler
    rw [if_neg hmcond, hdir]
    simp only [hod, hnul, Bool.false_eq_true, if_false]
    rw [if_pos hpre]
  · intro hpre
    refine ⟨?_, jsSubstr0_append hpre⟩
    rw [serveIndexHandler_probe env cwd root opts fs req dir od hm hdir hod hnul hpre]
    intro hcontra
    have := probeAndServe_nextStatus env cwd opts fs req (rootPathOf cwd root)
      (pathNormalize (pathJoin (rootPathOf cwd root) dir)) od 403 hcontra
    simp at this

/-- Counterexample to C1 as stated: the request path `/../%00` decodes and
normalizes to `/\x00`, which fails the confinement prefix check, yet the
handler responds 400 (the embedded-NUL BadRequest check fires first), not
403. -/
theorem path_confinement_cex :
    jsSubstr0 (pathNormalize (pathJoin (rootPathOf "/" "/root") "/../\x00") ++ sep)
        (rootPathOf "/" "/root").length ≠ rootPathOf "/" "/root" ∧
    getRequestedDir ⟨"GET", some "/../%00", some "/", acceptOnly "text/plain"⟩ =
      some "/../\x00" ∧
    serveIndexHandler demoEnv "/" "/root" demoOpts demoFs
        ⟨"GET", some "/../%00", some "/", acceptOnly "text/plain"⟩ =
      (Outcome.nextStatus 400, []) := by
  exact ⟨by decide, rfl, rfl⟩

/-- Witness for C1 (amended): a traversal attempt `/../../etc` is answered
403 with no filesystem operation, and an in-root request `/sub` passes the
check, is never answered 403, and its path is prefix-compatible with the
root. -/
theorem path_confinement_spec_witness :
    serveIndexHandler demoEnv "/" "/root" demoOpts demoFs
        ⟨"GET", some "/../../etc", some "/", acceptOnly "text/plain"⟩ =
      (Outcome.nextStatus 403, []) ∧
    ((serveIndexHandler demoEnv "/" "/root" demoOpts demoFs
        ⟨"GET", some "/sub", some "/sub", acceptOnly "text/plain"⟩).1 ≠
      Outcome.nextStatus 403 ∧
      ∃ t, pathNormalize (pathJoin (rootPathOf "/" "/root") "/sub") ++ sep =
        rootPathOf "/" "/root" ++ t) :=
  ⟨(path_confinement_spec demoEnv "/" "/root" demoOpts demoFs
      ⟨"GET", some "/../../etc", some "/", acceptOnly "text/plain"⟩ "/../../etc" "/"
      (Or.inl rfl) (by rfl) (by rfl) (by rfl)).1 (by decide),
   (path_confinement_spec demoEnv "/" "/root" demoOpts demoFs
      ⟨"GET", some "/sub", some "/sub", acceptOnly "text/plain"⟩ "/sub" "/sub"
      (Or.inl rfl) (by rfl) (by rfl) (by rfl)).2 (by decide)⟩

/-- C4: once the probe stage is reached, the initial stat outcome is
classified exactly as: `ENOENT` → defer to the next handler with no error;
any other stat failure → an error whose status is 414 for "name too long"
and 500 otherwise; existing non-directory → defer; directory → proceed to
the listing (a `readdir` of the path is issued). -/
theorem directory_probe_spec (env : JsEnv) (cwd root : String) (opts : ServeIndexOptions)
    (fs : FileSystem) (req : Request) (dir od rootPath path : String)
    (hroot : rootPath = rootPathOf cwd root)
    (hpath : path = pathNormalize (pathJoin rootPath dir))
    (hm : req.method = "GET" ∨ req.method = "HEAD")
    (hdir : getRequestedDir req = some dir)
    (hod : decodeURIComponent (req.originalPathname.getD "") = some od)
    (hnul : jsContainsChar path (Char.ofNat 0) = false)
    (hpre : jsSubstr0 (path ++ sep) rootPath.length = rootPath) :
    (fs.stat path = Except.error ErrCode.ENOENT →
      serveIndexHandler env cwd root opts fs req = (Outcome.nextHandler, [FsOp.statOp path])) ∧
    (∀ e, fs.stat path = Except.error e → e ≠ ErrCode.ENOENT →
      serveIndexHandler env cwd root opts fs req =
        (Outcome.nextFsError e (some (if e = ErrCode.ENAMETOOLONG then 414 else 500)),
          [FsOp.statOp path])) ∧
    (∀ st, fs.stat path = Except.ok st → st.isDirectory = false →
      serveIndexHandler env cwd root opts fs req = (Outcome.nextHandler, [FsOp.statOp path])) ∧
    (∀ st, fs.stat path = Except.ok st → st.isDirectory = true →
      FsOp.readdirOp path ∈ (serveIndexHandler env cwd root opts fs req).2) := by
  subst hroot
  subst hpath
  rw [serveIndexHandler_probe env cwd root opts fs req dir od hm hdir hod hnul hpre]
  refine ⟨?_, ?_, ?_, ?_⟩
  · intro hst
    simp only [probeAndServe, hst, if_pos rfl, if_true]
  · intro e hst hne
    simp only [probeAndServe, hst, if_neg hne]
  · intro st hst hd
    simp only [probeAndServe, hst, hd, Bool.not_false, if_true]
  · intro st hst hd
    simp only [probeAndServe, hst, hd, Bool.not_true, Bool.false_eq_true, if_false]
    cases hrd : fs.readdir
        (pathNormalize (pathJoin (rootPathOf cwd root) dir)) with
    | error e => simp [hrd]
    | ok rawFiles =>
      simp only [hrd]
      cases hneg : negotiate req.accept mediaTypes with
      | none => simp [hneg]
      | some t => simp [hneg]

/-- Witness for C4: all four probe classifications on the concrete
filesystem (missing path, over-long name, plain file, directory). -/
theorem directory_probe_spec_witness :
    serveIndexHandler demoEnv "/" "/root" demoOpts demoFs
        ⟨"GET", some "/nope", some "/nope", acceptOnly "text/plain"⟩ =
      (Outcome.nextHandler, [FsOp.statOp "/root/nope"]) ∧
    serveIndexHandler demoEnv "/" "/root" demoOpts demoFs
        ⟨"GET", some "/toolong", some "/toolong", acceptOnly "text/plain"⟩ =
      (Outcome.nextFsError ErrCode.ENAMETOOLONG (some 414), [FsOp.statOp "/root/toolong"]) ∧
    serveIndexHandler demoEnv "/" "/root" demoOpts demoFs
        ⟨"GET", some "/file.txt", some "/file.txt", acceptOnly "text/plain"⟩ =
      (Outcome.nextHandler, [FsOp.statOp "/root/file.txt"]) ∧
    FsOp.readdirOp "/root/sub" ∈
      (serveIndexHandler demoEnv "/" "/root" demoOpts demoFs
        ⟨"GET", some "/sub", some "/sub", acceptOnly "text/plain"⟩).2 := by
  refine ⟨?_, ?_, ?_, ?_⟩
  · exact (directory_probe_spec demoEnv "/" "/root" demoOpts demoFs
      ⟨"GET", some "/nope", some "/nope", acceptOnly "text/plain"⟩ "/nope" "/nope"
      "/root/" "/root/nope" (by rfl) (by rfl) (Or.inl rfl) (by rfl) (by rfl) (by rfl)
      (by rfl)).1 (by rfl)
  · have h := (directory_probe_spec demoEnv "/" "/root" demoOpts demoFs
      ⟨"GET", some "/toolong", some "/toolong", acceptOnly "text/plain"⟩ "/toolong" "/toolong"
      "/root/" "/root/toolong" (by rfl) (by rfl) (Or.inl rfl) (by rfl) (by rfl) (by rfl)
      (by rfl)).2.1 ErrCode.ENAMETOOLONG (by rfl) (by decide)
    rw [h]
    rfl
  · exact (directory_probe_spec demoEnv "/" "/root" demoOpts demoFs
      ⟨"GET", some "/file.txt", some "/file.txt", acceptOnly "text/plain"⟩ "/file.txt"
      "/file.txt" "/root/" "/root/file.txt" (by rfl) (by rfl) (Or.inl rfl) (by rfl) (by rfl)
      (by rfl) (by rfl)).2.2.1 ⟨false, 9, 0⟩ (by rfl) (by rfl)
  · exact (directory_probe_spec demoEnv "/" "/root" demoOpts demoFs
      ⟨"GET", some "/sub", some "/sub", acceptOnly "text/plain"⟩ "/sub" "/sub"
      "/root/" "/root/sub" (by rfl) (by rfl) (Or.inl rfl) (by rfl) (by rfl) (by rfl)
      (by rfl)).2.2.2 ⟨true, 0, 0⟩ (by rfl) (by rfl)

/-! ## Content negotiation -/

theorem negotiateAux_none (accept : String → Option Nat) :
    ∀ offered : List String, (∀ t ∈ offered, accept t = none) →
      negotiateAux accept offered none = none
  | [], _ => rfl
  | t :: rest, h => by
    have ht := h t (List.mem_cons_self _ _)
    simp only [negotiateAux, ht]
    exact negotiateAux_none accept rest (fun u hu => h u (List.mem_cons_of_mem _ hu))

theorem negotiate_none (accept : String → Option Nat) (offered : List String)
    (h : ∀ t ∈ offered, accept t = none) : negotiate accept offered = none := by
  unfold negotiate
  rw [negotiateAux_none accept offered h]
  rfl

theorem negotiateAux_keep (accept : String → Option Nat) (q : Nat) (bt : String) :
    ∀ offered : List String,
      (∀ u ∈ offered, ∀ q', accept u = some q' → q' ≤ q) →
      negotiateAux accept offered (some (bt, q)) = some (bt, q)
  | [], _ => rfl
  | u :: rest, h => by
    cases hu : accept u with
    | none =>
      simp only [negotiateAux, hu]
      exact negotiateAux_keep accept q bt rest (fun v hv => h v (List.mem_cons_of_mem _ hv))
    | some q' =>
      have hle : q' ≤ q := h u (List.mem_cons_self _ _) q' hu
      simp only [negotiateAux, hu, if_neg (not_lt_of_le hle)]
      exact negotiateAux_keep accept q bt rest (fun v hv => h v (List.mem_cons_of_mem _ hv))

theorem negotiateAux_find (accept : String → Option Nat) (q : Nat) :
    ∀ (offered : List String) (best : Option (String × Nat)) (t : String),
      (∀ u ∈ offered, ∀ q', accept u = some q' → q' ≤ q) →
      (best = none ∨ ∃ b, best = some b ∧ b.2 < q) →
      offered.find? (fun u => accept u == some q) = some t →
      negotiateAux accept offered best = some (t, q)
  | [], _, _, _, _, hf => by simp [List.find?] at hf
  | u :: rest, best, t, h, hb, hf => by
    have hrest : ∀ v ∈ rest, ∀ q', accept v = some q' → q' ≤ q :=
      fun v hv => h v (List.mem_cons_of_mem _ hv)
    cases hbeq : (accept u == some q) with
    | true =>
      have hu : accept u = some q := eq_of_beq hbeq
      have ht : t = u := by
        rw [List.find?] at hf
        rw [hbeq] at hf
        injection hf with h'
        exact h'.symm
      subst ht
      rcases hb with hb | ⟨b, hb, hlt⟩
      · subst hb
        simp only [negotiateAux, hu]
        exact negotiateAux_keep accept q t rest hrest
      · subst hb
        simp only [negotiateAux, hu, if_pos hlt]
        exact negotiateAux_keep accept q t rest hrest
    | false =>
      have hf' : rest.find? (fun u => accept u == some q) = some t := by
        rw [List.find?] at hf
        rw [hbeq] at hf
        exact hf
      cases hu : accept u with
      | none =>
        simp only [negotiateAux, hu]
        rcases hb with hb | ⟨b, hb, hlt⟩
        · subst hb
          exact negotiateAux_find accept q rest none t hrest (Or.inl rfl) hf'
        · subst hb
          exact negotiateAux_find accept q rest (some b) t hrest (Or.inr ⟨b, rfl, hlt⟩) hf'
      | some q' =>
        have hle : q' ≤ q := h u (List.mem_cons_self _ _) q' hu
        have hne : q' ≠ q := by
          intro hqq
          subst hqq
          rw [hu] at hbeq
          simp at hbeq
        have hlt' : q' < q := lt_of_le_of_ne hle hne
        rcases hb with hb | ⟨b, hb, hlt⟩
        · subst hb
          simp only [negotiateAux, hu]
          exact negotiateAux_find accept q rest (some (u, q')) t hrest
            (Or.inr ⟨(u, q'), rfl, hlt'⟩) hf'
        · subst hb
          simp only [negotiateAux, hu]
          by_cases hc : b.2 < q'
          · rw [if_pos hc]
            exact negotiateAux_find accept q rest (some (u, q')) t hrest
              (Or.inr ⟨(u, q'), rfl, hlt'⟩) hf'
          · rw [if_neg hc]
            exact negotiateAux_find accept q rest (some b) t hrest
              (Or.inr ⟨b, rfl, hlt⟩) hf'

/-- C6: when no offered media type is acceptable the handler fails with 406
and renders no body (issuing no further filesystem operation beyond the probe
and the listing); and the negotiator picks the first offered type achieving
the maximal acceptable preference, so on ties the earliest in the offered set
wins. -/
theorem negotiation_spec :
    (∀ (env : JsEnv) (cwd root : String) (opts : ServeIndexOptions) (fs : FileSystem)
      (req : Request) (dir od rootPath path : String) (st : Stats) (rawFiles : List String),
      rootPath = rootPathOf cwd root →
      path = pathNormalize (pathJoin rootPath dir) →
      (req.method = "GET" ∨ req.method = "HEAD") →
      getRequestedDir req = some dir →
      decodeURIComponent (req.originalPathname.getD "") = some od →
      jsContainsChar path (Char.ofNat 0) = false →
      jsSubstr0 (path ++ sep) rootPath.length = rootPath →
      fs.stat path = Except.ok st → st.isDirectory = true →
      fs.readdir path = Except.ok rawFiles →
      (∀ t ∈ mediaTypes, req.accept t = none) →
      serveIndexHandler env cwd root opts fs req =
        (Outcome.nextStatus 406, [FsOp.statOp path, FsOp.readdirOp path])) ∧
    (∀ (accept : String → Option Nat) (offered : List String) (q : Nat) (t : String),
      (∀ u ∈ offered, ∀ q', accept u = some q' → q' ≤ q) →
      offered.find? (fun u => accept u == some q) = some t →
      negotiate accept offered = some t) := by
  constructor
  · intro env cwd root opts fs req dir od rootPath path st rawFiles hroot hpath hm hdir hod
      hnul hpre hst hd hrd hacc
    subst hroot
    subst hpath
    rw [serveIndexHandler_probe env cwd root opts fs req dir od hm hdir hod hnul hpre]
    simp only [probeAndServe, hst, hd, Bool.not_true, Bool.false_eq_true, if_false, hrd,
      negotiate_none req.accept mediaTypes hacc]
  · intro accept offered q t h hf
    unfold negotiate
    rw [negotiateAux_find accept q offered none t h (Or.inl rfl) hf]
    rfl

/-- Witness for C6: a request accepting only `application/xml` is answered
406 after the probe and the listing; and an acceptance tying `text/html` with
`text/plain` at the same preference negotiates `text/html`, the earliest
offered. -/
theorem negotiation_spec_witness :
    serveIndexHandler demoEnv "/" "/root" demoOpts demoFs
        ⟨"GET", some "/sub", some "/sub", acceptOnly "application/xml"⟩ =
      (Outcome.nextStatus 406, [FsOp.statOp "/root/sub", FsOp.readdirOp "/root/sub"]) ∧
    negotiate
        (fun t => if t = "text/html" then some 1 else if t = "text/plain" then some 1 else none)
        mediaTypes = some "text/html" := by
  constructor
  · exact negotiation_spec.1 demoEnv "/" "/root" demoOpts demoFs
      ⟨"GET", some "/sub", some "/sub", acceptOnly "application/xml"⟩ "/sub" "/sub"
      "/root/" "/root/sub" ⟨true, 0, 0⟩ ["b.txt", ".hidden", "A"]
      (by rfl) (by rfl) (Or.inl rfl) (by rfl) (by rfl) (by rfl) (by rfl) (by rfl) (by rfl)
      (by rfl) (by decide)
  · refine negotiation_spec.2 _ mediaTypes 1 "text/html" ?_ (by decide)
    intro u hu q' hq'
    fin_cases hu <;> simp_all
